import Mathlib

/-!
Shallow embedding of the collection-lifecycle and resilient-request layer of
the langchain-lambdadb integration (src/utils.ts and
src/lambdadb-vector-store.ts).  JavaScript objects are modelled as
association lists with set/delete operations keeping keys unique; numbers
are modelled exactly (Nat/Int/Rat) since the layer only compares, scales and
passes them through; asynchronous effects are modelled by explicit outcome
values and by lists of the remote calls an operation would issue.
-/

namespace LangchainLambdaDB

/-- JavaScript values as they appear in wire documents and metadata.
Truthiness of each shape follows JavaScript: empty string, zero, false and
null are falsy, arrays are always truthy. -/
inductive JsValue where
  | str (s : String)
  | num (n : Int)
  | bool (b : Bool)
  | vec (v : List Int)
  | null
deriving DecidableEq, Repr

/-- JavaScript truthiness for a JsValue. -/
def jsTruthy : JsValue → Bool
  | JsValue.str s => s ≠ ""
  | JsValue.num n => n ≠ 0
  | JsValue.bool b => b
  | JsValue.vec _ => true
  | JsValue.null => false

/-- Flat JavaScript object: an association list whose keys are kept unique
by the set operation (later writes overwrite earlier ones, as in object
literals with spread). -/
abbrev Obj := List (String × JsValue)

/-- Property read, obj[k]; none models undefined. -/
def objGet : Obj → String → Option JsValue
  | [], _ => none
  | (k0, v) :: rest, k => if k0 = k then some v else objGet rest k

/-- Delete obj[k]. -/
def objDel : Obj → String → Obj
  | [], _ => []
  | (k0, v) :: rest, k =>
    if k0 = k then objDel rest k else (k0, v) :: objDel rest k

/-- Property write, obj[k] = v (removes any previous binding of k). -/
def objSet (l : Obj) (k : String) (v : JsValue) : Obj :=
  objDel l k ++ [(k, v)]

/-- Spread of a list of entries onto an object, left to right; models
object-literal spread where later entries overwrite earlier ones. -/
def objSetAll (l : Obj) : List (String × JsValue) → Obj
  | [] => l
  | (k, v) :: rest => objSetAll (objSet l k v) rest

/-- Evaluation of a JavaScript or-chain a || b || c: the first truthy
operand, none when every operand is falsy or absent. -/
def firstTruthy : List (Option JsValue) → Option JsValue
  | [] => none
  | o :: rest =>
    match o with
    | some v => if jsTruthy v then some v else firstTruthy rest
    | none => firstTruthy rest

/-- Input document (the LangChain Document handed to the store): page
content plus metadata entries. -/
structure SrcDoc where
  pageContent : String
  metadata : List (String × JsValue)
deriving DecidableEq, Repr

/-- Document produced by the inbound translation; its page content is
whatever JsValue the or-chain produced (JavaScript does not force it to be
a string). -/
structure InDoc where
  pageContent : JsValue
  metadata : Obj
deriving DecidableEq, Repr

/-- Store configuration fields used by the translated operations, with the
constructor defaults of LambdaDBVectorStore (textField "content",
vectorField "vector", defaultConsistentRead false). -/
structure StoreConfig where
  collectionName : String
  vectorDimensions : Nat
  textField : String := "content"
  vectorField : String := "vector"
  defaultConsistentRead : Bool := false
deriving DecidableEq, Repr

/-- Wire document built by addVectors: the object literal
with id, then the text field, then the vector field, then the spread of the
document's metadata (metadata entries written last, so they overwrite any
colliding earlier field). -/
def mkWireDoc (cfg : StoreConfig) (id : String) (content : String)
    (vector : List Int) (metadata : List (String × JsValue)) : Obj :=
  objSetAll
    (objSet (objSet (objSet [] "id" (JsValue.str id))
      cfg.textField (JsValue.str content)) cfg.vectorField (JsValue.vec vector))
    metadata

/-- Translation of lambdaDBToDocument from utils.ts: page content is the
or-chain over the configured text field and the literal fallbacks content
and pageContent, defaulting to the empty string; metadata is a copy of the
wire object with the text field, the literal fields embedding and vector,
and the id field deleted. -/
def lambdaDBToDocument (wire : Obj) (textField : String) : InDoc :=
  let pc := (firstTruthy
    [objGet wire textField, objGet wire "content", objGet wire "pageContent"]).getD
    (JsValue.str "")
  let md := objDel (objDel (objDel (objDel wire textField) "embedding") "vector") "id"
  { pageContent := pc, metadata := md }

/-- Message of the dimension-mismatch error raised by
validateVectorDimensions, naming both lengths. -/
def dimMismatchMsg (expected got : Nat) : String :=
  "Vector dimension mismatch: expected " ++ toString expected ++ ", got " ++ toString got

/-- Translation of validateVectorDimensions from utils.ts. -/
def validateVectorDimensions (vector : List Int) (expectedDimensions : Nat) :
    Except String Unit :=
  if vector.length ≠ expectedDimensions then
    Except.error (dimMismatchMsg expectedDimensions vector.length)
  else Except.ok ()

/-- Fuel-driven body of batchArray. -/
def batchArrayGo (size : Nat) : Nat → List α → List (List α)
  | _, [] => []
  | 0, _ => []
  | fuel + 1, l => l.take size :: batchArrayGo size fuel (l.drop size)

/-- Translation of batchArray from utils.ts: slice the array into chunks of
the given size.  The source always calls it with size 100; size 0 (which
would loop forever in JavaScript) is mapped to the empty batch list. -/
def batchArray (l : List α) (size : Nat) : List (List α) :=
  if size = 0 then [] else batchArrayGo size l.length l

/-- Wire documents built by addVectors for each (vector, document) pair in
order, with the freshly generated id for index idx supplied by genId idx
(id generation via time and randomness is abstracted into this parameter). -/
def buildWireDocs (cfg : StoreConfig) (genId : Nat → String) :
    Nat → List (List Int) → List SrcDoc → List Obj
  | _, [], _ => []
  | _, _ :: _, [] => []
  | idx, v :: vs, d :: ds =>
    mkWireDoc cfg (genId idx) d.pageContent v d.metadata ::
      buildWireDocs cfg genId (idx + 1) vs ds

/-- Translation of the synchronous, pre-network part of addVectors from
lambdadb-vector-store.ts.  An error value is thrown before the method
reaches its first remote call (ensureCollectionExists); an ok value carries
the upsert batches the method then sends, one remote upsert per batch.
Only the first vector of a non-empty batch is dimension-checked, exactly as
in the source. -/
def addVectors (cfg : StoreConfig) (genId : Nat → String)
    (vectors : List (List Int)) (documents : List SrcDoc) :
    Except String (List (List Obj)) :=
  if vectors.length ≠ documents.length then
    Except.error "Vectors and documents length mismatch"
  else
    match vectors with
    | [] => Except.ok (batchArray (buildWireDocs cfg genId 0 [] documents) 100)
    | v :: _ =>
      match validateVectorDimensions v cfg.vectorDimensions with
      | Except.error e => Except.error e
      | Except.ok _ =>
        Except.ok (batchArray (buildWireDocs cfg genId 0 vectors documents) 100)

/-- KNN request body built by similaritySearchVectorWithScore (the optional
server-side filter is omitted; it is passed through verbatim when present
and plays no role in the properties below). -/
structure KnnRequest where
  size : Nat
  field : String
  queryVector : List Int
  k : Nat
  consistentRead : Bool
deriving DecidableEq, Repr

/-- Translation of the request-building prefix of
similaritySearchVectorWithScore: the query vector is dimension-checked
before any remote call; on success the KNN request body is produced. -/
def similaritySearchRequest (cfg : StoreConfig) (query : List Int) (k : Nat) :
    Except String KnnRequest :=
  match validateVectorDimensions query cfg.vectorDimensions with
  | Except.error e => Except.error e
  | Except.ok _ =>
    Except.ok { size := k, field := cfg.vectorField, queryVector := query,
                k := k, consistentRead := cfg.defaultConsistentRead }

/-- Message of the oversized-document error raised by addDocuments, naming
the offending index. -/
def tooLongMsg (index : Nat) : String :=
  "The text at index " ++ toString index ++ " is too long. Max length is 50KB."

/-- Outcome of the synchronous prefix of addDocuments: noop models the
early return on an empty input (no embedding, no network); tooLong models
the length-validation throw (raised before embedDocuments is invoked);
proceed texts is the unique outcome in which embedDocuments texts is
invoked and the method continues to addVectors. -/
inductive AddDocsOutcome where
  | noop
  | tooLong (index : Nat)
  | proceed (texts : List String)
deriving DecidableEq, Repr

/-- Index of the first text longer than 50 * 1000 characters, counting from
the given start index; mirrors the validation loop of addDocuments. -/
def firstTooLong : List String → Nat → Option Nat
  | [], _ => none
  | t :: rest, i => if 50 * 1000 < t.length then some i else firstTooLong rest (i + 1)

/-- Translation of the pre-embedding prefix of addDocuments from
lambdadb-vector-store.ts: empty input returns immediately; otherwise every
text is length-checked (first offender wins) before the embedding
capability is invoked. -/
def addDocumentsCheck (documents : List SrcDoc) : AddDocsOutcome :=
  if documents.isEmpty then AddDocsOutcome.noop
  else
    let texts := documents.map SrcDoc.pageContent
    match firstTooLong texts 0 with
    | some i => AddDocsOutcome.tooLong i
    | none => AddDocsOutcome.proceed texts

/-- Shape of a thrown JavaScript error as inspected by withRetry: its name,
message, optional system code, whether it is an instance of
LambdaDBRateLimitError, and its retryAfter field (in seconds; none models
undefined, and 0 is falsy). -/
structure JsError where
  name : String
  message : String
  code : Option String := none
  isRateLimit : Bool := false
  retryAfter : Option Nat := none
deriving DecidableEq, Repr

/-- Retry configuration from utils.ts.  maxAttempts is an Int because the
loop bound is an arbitrary caller-supplied number; delays are naturals in
milliseconds. -/
structure RetryOptions where
  maxAttempts : Int
  initialDelay : Nat
  maxDelay : Nat
  backoffMultiplier : Nat
  retryableErrors : List String
deriving DecidableEq, Repr

/-- Translation of DEFAULT_RETRY_OPTIONS from utils.ts. -/
def DEFAULT_RETRY_OPTIONS : RetryOptions :=
  { maxAttempts := 3, initialDelay := 1000, maxDelay := 10000,
    backoffMultiplier := 2,
    retryableErrors := ["LambdaDBConnectionError", "LambdaDBRateLimitError",
      "ECONNREFUSED", "ENOTFOUND", "TIMEOUT"] }

/-- Occurrence of pat as a contiguous run inside l. -/
def listInfixOf (pat : List Char) : List Char → Bool
  | [] => pat.isEmpty
  | c :: rest => pat.isPrefixOf (c :: rest) || listInfixOf pat rest

/-- Occurrence of pat inside s, as a Bool; models String.prototype.includes. -/
def strIncludes (s pat : String) : Bool :=
  listInfixOf pat.data s.data

/-- Retryability test of withRetry: some listed kind equals the error name,
occurs as a substring of the message, or equals the system code. -/
def isRetryable (cfg : RetryOptions) (e : JsError) : Bool :=
  cfg.retryableErrors.any (fun t =>
    e.name = t || strIncludes e.message t || e.code = some t)

/-- Delay computation of one retry step in withRetry: exponential backoff
from initialDelay, overridden by a truthy rate-limit retryAfter hint
converted to milliseconds, then capped by maxDelay (the cap is applied
after the override in the source). -/
def computeDelay (cfg : RetryOptions) (e : JsError) (attempt : Nat) : Nat :=
  let d := cfg.initialDelay * cfg.backoffMultiplier ^ (attempt - 1)
  let d2 :=
    match e.isRateLimit, e.retryAfter with
    | true, some r => if r ≠ 0 then r * 1000 else d
    | _, _ => d
  min d2 cfg.maxDelay

/-- Outcome of withRetry: a success value, a thrown error, or the throw of
the never-assigned lastError variable (JavaScript throw undefined) when the
loop body never ran. -/
inductive RetryOutcome (T : Type) where
  | ok (v : T)
  | threw (e : JsError)
  | threwUndefined
deriving DecidableEq, Repr

/-- Loop body of withRetry.  Arguments after the operation and options:
remaining loop iterations (maxAttempts.toNat at entry, matching the bound
attempt <= maxAttempts of the for loop), current attempt number, number of
invocations of the operation so far, the lastError variable, and the delays
slept so far in reverse order.  The result carries the outcome, the total
number of invocations, and the chronological list of delays slept. -/
def withRetryGo (op : Nat → Except JsError T) (cfg : RetryOptions) :
    Nat → Nat → Nat → Option JsError → List Nat →
    RetryOutcome T × Nat × List Nat
  | 0, _, count, lastError, delays =>
    (match lastError with
     | none => RetryOutcome.threwUndefined
     | some e => RetryOutcome.threw e, count, delays.reverse)
  | fuel + 1, attempt, count, _, delays =>
    match op attempt with
    | Except.ok v => (RetryOutcome.ok v, count + 1, delays.reverse)
    | Except.error e =>
      if (attempt : Int) = cfg.maxAttempts then
        (RetryOutcome.threw e, count + 1, delays.reverse)
      else if isRetryable cfg e then
        withRetryGo op cfg fuel (attempt + 1) (count + 1) (some e)
          (computeDelay cfg e attempt :: delays)
      else
        (RetryOutcome.threw e, count + 1, delays.reverse)

/-- Translation of withRetry from utils.ts.  The operation is modelled as a
function from the attempt number (1-based) to that invocation's result, so
that a single pure value describes every behaviour of the underlying
stateful operation. -/
def withRetry (op : Nat → Except JsError T) (cfg : RetryOptions) :
    RetryOutcome T × Nat × List Nat :=
  withRetryGo op cfg cfg.maxAttempts.toNat 1 0 none []

/-- Raw failure value as inspected by handleLambdaDBError: optional numeric
status fields, optional message and body message (none models undefined,
the empty string is falsy), an error name, an optional system code, the
optional retry-after header already parsed to seconds, and whether the
value is an instance of Error. -/
structure RawError where
  status : Option Nat := none
  statusCode : Option Nat := none
  message : Option String := none
  bodyMessage : Option String := none
  name : String := "Error"
  code : Option String := none
  retryAfterSeconds : Option Nat := none
  isErrorInstance : Bool := true
deriving DecidableEq, Repr

/-- Value of the JavaScript expression a || b over optional numbers: the
first operand when truthy (present and nonzero), otherwise the second. -/
def jsOrNum (a b : Option Nat) : Option Nat :=
  match a with
  | some n => if n ≠ 0 then some n else b
  | none => b

/-- Truthiness of an optional number (present and nonzero). -/
def truthyNum : Option Nat → Bool
  | some n => n ≠ 0
  | none => false

/-- Value of the JavaScript expression a || b over optional strings. -/
def jsOrStr (a : Option String) (b : String) : String :=
  match a with
  | some s => if s ≠ "" then s else b
  | none => b

/-- Effective message used by the status branch of handleLambdaDBError:
error.message || error.body?.message || the literal Unknown error. -/
def effMessage (e : RawError) : String :=
  jsOrStr e.message (jsOrStr e.bodyMessage "Unknown error")

/-- Interpolation of a possibly-undefined message into a template literal
(undefined prints as the string undefined). -/
def msgStr (m : Option String) : String :=
  m.getD "undefined"

/-- Classified error produced by handleLambdaDBError.  The first five
constructors are the typed taxonomy; passthrough models the final branch
returning an Error instance unchanged; wrapped models new Error(String(e))
for non-Error thrown values. -/
inductive TypedError where
  | auth (msg : String)
  | notFound (msg : String)
  | validation (msg : String)
  | rateLimit (msg : String) (retryAfter : Option Nat)
  | connection (msg : String)
  | passthrough (e : RawError)
  | wrapped (e : RawError)
deriving DecidableEq, Repr

/-- Membership of a classified error in the typed taxonomy of utils.ts
(authentication, not-found, validation, rate-limit, connection). -/
def isTaxonomy : TypedError → Bool
  | TypedError.auth _ => true
  | TypedError.notFound _ => true
  | TypedError.validation _ => true
  | TypedError.rateLimit _ _ => true
  | TypedError.connection _ => true
  | TypedError.passthrough _ => false
  | TypedError.wrapped _ => false

/-- Name and code branches of handleLambdaDBError, reached when no
recognized HTTP status was found. -/
def handleByNameOrCode (e : RawError) : TypedError :=
  if e.name = "LambdaDBError" || e.name = "UnauthenticatedError" then
    TypedError.auth ("LambdaDB Error: " ++ msgStr e.message)
  else if e.name = "ResourceNotFoundError" then
    TypedError.notFound ("Resource not found: " ++ msgStr e.message)
  else if e.code = some "ECONNREFUSED" || e.code = some "ENOTFOUND" then
    TypedError.connection ("Connection failed: " ++ msgStr e.message)
  else if e.isErrorInstance then TypedError.passthrough e
  else TypedError.wrapped e

/-- Translation of handleLambdaDBError from utils.ts: a truthy
status || statusCode is dispatched through the status switch (whose default
falls through to the name and code checks), then known error names, then
network codes, and finally Error instances pass through unchanged while
other values are wrapped. -/
def handleLambdaDBError (e : RawError) : TypedError :=
  let st := jsOrNum e.status e.statusCode
  if truthyNum st then
    let s := st.getD 0
    let msg := effMessage e
    if s = 401 || s = 403 then TypedError.auth ("Authentication failed: " ++ msg)
    else if s = 404 then TypedError.notFound ("Resource not found: " ++ msg)
    else if s = 400 then TypedError.validation ("Validation error: " ++ msg)
    else if s = 429 then
      TypedError.rateLimit ("Rate limit exceeded: " ++ msg) e.retryAfterSeconds
    else if s = 500 || s = 502 || s = 503 || s = 504 then
      TypedError.connection ("Server error: " ++ msg)
    else handleByNameOrCode e
  else handleByNameOrCode e

/-- Result of one collection-info fetch inside the poll loop: the observed
status string, or a failure of the fetch itself. -/
inductive PollResult where
  | ok (status : String)
  | fetchErr (msg : String)
deriving DecidableEq, Repr

/-- Outcome of waitForCollectionActive.  statusError carries the status
named by the terminal error; fetchFailure is a rethrown fetch failure;
timeoutExpired is the timeout error after the while loop; pollsExhausted is
a model artifact marking that the supplied poll sequence ended while the
loop would have kept polling. -/
inductive WaitOutcome where
  | success
  | statusError (status : String)
  | fetchFailure (msg : String)
  | timeoutExpired
  | pollsExhausted
deriving DecidableEq, Repr

/-- Translation of waitForCollectionActive from lambdadb-vector-store.ts.
Each list entry is one getCollectionInfo result together with the wall
clock time that fetch consumed; sleeps last exactly pollInterval.  The
throw on a FAILED or ERROR status happens inside the try block, so it is
caught by the surrounding catch, which swallows it and keeps polling
whenever the elapsed time is still below the timeout, exactly as in the
source. -/
def waitForCollectionActive (maxWaitTimeMs pollInterval : Nat) :
    List (PollResult × Nat) → Nat → WaitOutcome
  | [], elapsed =>
    if elapsed < maxWaitTimeMs then WaitOutcome.pollsExhausted
    else WaitOutcome.timeoutExpired
  | (p, dur) :: rest, elapsed =>
    if elapsed < maxWaitTimeMs then
      let after := elapsed + dur
      match p with
      | PollResult.ok st =>
        if st = "ACTIVE" then WaitOutcome.success
        else if st = "FAILED" || st = "ERROR" then
          if after < maxWaitTimeMs then
            waitForCollectionActive maxWaitTimeMs pollInterval rest
              (after + pollInterval)
          else WaitOutcome.statusError st
        else
          waitForCollectionActive maxWaitTimeMs pollInterval rest
            (after + pollInterval)
      | PollResult.fetchErr m =>
        if after < maxWaitTimeMs then
          waitForCollectionActive maxWaitTimeMs pollInterval rest
            (after + pollInterval)
        else WaitOutcome.fetchFailure m
    else WaitOutcome.timeoutExpired

/-- Outcome of the collections.list call seen by ensureCollectionExists:
a thrown failure, or a response carrying the listed collection names. -/
inductive ListOutcome where
  | err
  | ok (names : List String)
deriving DecidableEq, Repr

/-- Outcome of a createCollection invocation (create plus active-wait),
collapsed to success or failure. -/
inductive CreateOutcome where
  | ok
  | err
deriving DecidableEq, Repr

/-- Environment of one ensureCollectionExists call: what the list call and
the first create call (if one is reached) would do. -/
structure EnsureEnv where
  listRes : ListOutcome
  createRes : CreateOutcome
deriving DecidableEq, Repr

/-- Observable result of one ensureCollectionExists call: whether the call
throws to its caller, and how many createCollection attempts it made. -/
structure EnsureResult where
  fails : Bool
  createCalls : Nat
deriving DecidableEq, Repr

/-- Translation of ensureCollectionExists from lambdadb-vector-store.ts.
The whole body runs inside one try block.  When the list succeeds and names
the collection, nothing more happens.  When the list succeeds without the
name, createCollection is invoked inside that same try, so if it fails the
outer catch runs and attempts createCollection a second time, swallowing
any failure of that second attempt.  When the list itself fails, the catch
attempts createCollection once and swallows any failure.  The method can
therefore never throw.  createRes is the outcome of the first
createCollection invocation of the call; the outcome of a second, fallback
invocation is swallowed either way and cannot influence the result. -/
def ensureCollectionExists (name : String) (env : EnsureEnv) : EnsureResult :=
  match env.listRes with
  | ListOutcome.ok names =>
    if names.contains name then { fails := false, createCalls := 0 }
    else
      match env.createRes with
      | CreateOutcome.ok => { fails := false, createCalls := 1 }
      | CreateOutcome.err => { fails := false, createCalls := 2 }
  | ListOutcome.err => { fails := false, createCalls := 1 }

/-- Consistency of an environment with the collection already existing: a
successful list response must name the collection; a failed list call
carries no information, so it is always consistent. -/
def consistentWithExisting (name : String) (env : EnsureEnv) : Bool :=
  match env.listRes with
  | ListOutcome.ok names => names.contains name
  | ListOutcome.err => true

/-- Rank-based score of candidate i out of n in the simplified MMR loop:
relevance lambda * (1 - i/n) plus diversity (1 - lambda) * (i/n).  Numbers
are modelled exactly as rationals. -/
def mmrScore (lambda : Rat) (n i : Nat) : Rat :=
  lambda * (1 - (i : Rat) / (n : Rat)) + (1 - lambda) * ((i : Rat) / (n : Rat))

/-- Inner scan of maxMarginalRelevanceSearch over the remaining index list:
skip already selected candidates (selected.includes, which is reference
identity, i.e. index identity since every candidate object is distinct) and
keep the best score seen so far, replacing only on a strict improvement;
the accumulator none models bestScore = -Infinity, bestIdx = -1. -/
def findBestGo (lambda : Rat) (n : Nat) (selected : List Nat) :
    List Nat → Option (Nat × Rat) → Option (Nat × Rat)
  | [], best => best
  | i :: rest, best =>
    if i ∈ selected then findBestGo lambda n selected rest best
    else
      let sc := mmrScore lambda n i
      match best with
      | none => findBestGo lambda n selected rest (some (i, sc))
      | some (bi, bs) =>
        if bs < sc then findBestGo lambda n selected rest (some (i, sc))
        else findBestGo lambda n selected rest (some (bi, bs))

/-- Best unselected candidate found by one round of the selection loop. -/
def findBest (lambda : Rat) (n : Nat) (selected : List Nat) : Option Nat :=
  (findBestGo lambda n selected (List.range n) none).map Prod.fst

/-- Outer while loop of maxMarginalRelevanceSearch: while fewer than k and
fewer than n candidates are selected, append the best remaining candidate;
stop when none is found.  Fuel k bounds the iterations (each one grows the
selection, which the loop condition caps at k). -/
def mmrLoop (lambda : Rat) (n k : Nat) : Nat → List Nat → List Nat
  | 0, selected => selected
  | fuel + 1, selected =>
    if selected.length < k ∧ selected.length < n then
      match findBest lambda n selected with
      | some i => mmrLoop lambda n k fuel (selected ++ [i])
      | none => selected
    else selected

/-- Index-level translation of the selection phase of
maxMarginalRelevanceSearch from lambdadb-vector-store.ts: candidates are
identified with their ranks 0..n-1 in the fetched result order; the first
candidate is always selected, the loop fills the rest, and the final slice
takes at most k. -/
def mmrSelect (lambda : Rat) (n k : Nat) : List Nat :=
  if n = 0 then [] else (mmrLoop lambda n k k [0]).take k

/-- Document-level result of maxMarginalRelevanceSearch given the fetched
candidate documents in server order. -/
def maxMarginalRelevanceSearch (candidates : List InDoc) (k : Nat)
    (lambda : Rat) : List InDoc :=
  (mmrSelect lambda candidates.length k).map
    (fun i => candidates.getD i { pageContent := JsValue.str "", metadata := [] })

/-! Concrete inputs used by the witnesses and counterexamples below. -/

/-- Poll sequence observing CREATING once and then FAILED on every later
fetch, each fetch instantaneous. -/
def failedPollSeq : List (PollResult × Nat) :=
  (PollResult.ok "CREATING", 0) :: List.replicate 30 (PollResult.ok "FAILED", 0)

/-- Deterministic id generator standing in for generateDocumentId. -/
def genIdModel (i : Nat) : String := "doc_" ++ toString i

/-- Store configuration with dimensionality 3 and the constructor defaults. -/
def cfgDim3 : StoreConfig := { collectionName := "c", vectorDimensions := 3 }

/-- Minimal input document. -/
def docA : SrcDoc := { pageContent := "a", metadata := [] }

/-- Rate-limit error instance carrying a 20 second retry-after hint. -/
def rlErr : JsError :=
  { name := "LambdaDBRateLimitError"
    message := "Rate limit exceeded"
    isRateLimit := true
    retryAfter := some 20 }

/-- Operation failing with the rate-limit error on the first attempt and
succeeding on every later one. -/
def rlOp : Nat → Except JsError Nat :=
  fun i => if i = 1 then Except.error rlErr else Except.ok 42

/-- Text of 50001 characters. -/
def bigText : String := String.mk (List.replicate 50001 'a')

/-- Document whose content exceeds the 50KB limit by one character. -/
def bigDoc : SrcDoc := { pageContent := bigText, metadata := [] }

/-- Environment in which the list call fails and the fallback create also
fails (for instance because the collection already exists). -/
def raceEnv : EnsureEnv := { listRes := ListOutcome.err, createRes := CreateOutcome.err }

/-- Environment in which the list call succeeds and names the collection. -/
def listedEnv : EnsureEnv :=
  { listRes := ListOutcome.ok ["docs"], createRes := CreateOutcome.ok }

/-- Raw transport failure that carries no recognized status, name or code:
an Error instance a fetch layer might throw. -/
def fetchRaw : RawError := { name := "FetchError", message := some "socket hang up" }

/-- Raw failure carrying a known service-error name and no status. -/
def namedRaw : RawError := { name := "ResourceNotFoundError", message := some "gone" }

/-- Raw failure carrying a DNS-failure system code and no status. -/
def codeRaw : RawError :=
  { name := "Error", message := some "dns", code := some "ENOTFOUND" }

/-- Retryable connection error used by the retry witnesses. -/
def connErr : JsError := { name := "LambdaDBConnectionError", message := "Server error" }

/-- Non-retryable validation-like error used by the retry witnesses. -/
def plainErr : JsError := { name := "Error", message := "bad input" }

/-- Operation failing once with the connection error, then succeeding. -/
def flakyOp : Nat → Except JsError Nat :=
  fun i => if i = 1 then Except.error connErr else Except.ok 7

/-- Operation that always fails with the non-retryable error. -/
def brokenOp : Nat → Except JsError Nat := fun _ => Except.error plainErr

/-- Two fetched candidate documents for the diversity-search witness. -/
def mmrCands : List InDoc :=
  [{ pageContent := JsValue.str "a", metadata := [] },
   { pageContent := JsValue.str "b", metadata := [] }]

end LangchainLambdaDB

namespace LangchainLambdaDB

/-! Helper lemmas. -/

/-- Length of the oversized text. -/
theorem bigText_length : bigText.length = 50001 := by
  show (List.replicate 50001 'a').length = 50001
  exact List.length_replicate 50001 'a'

/-- Correctness of the first-offender scan of addDocuments: when some text
is longer than 50000 characters, the scan reports the index (offset by the
start counter) of such a text. -/
theorem firstTooLong_spec (texts : List String) :
    ∀ s, (∃ t ∈ texts, 50 * 1000 < t.length) →
      ∃ j, firstTooLong texts s = some (s + j) ∧
        ∃ t, texts.get? j = some t ∧ 50 * 1000 < t.length := by
  induction texts with
  | nil => intro s h; simp at h
  | cons t rest ih =>
    intro s h
    by_cases hl : 50 * 1000 < t.length
    · exact ⟨0, by simp [firstTooLong, hl], t, rfl, hl⟩
    · obtain ⟨t', ht', hl'⟩ := h
      rcases List.mem_cons.mp ht' with h1 | h2
      · exact absurd (h1 ▸ hl') hl
      · obtain ⟨j, hj, t'', ht'', hl''⟩ := ih (s + 1) ⟨t', h2, hl'⟩
        refine ⟨j + 1, ?_, t'', by simpa using ht'', hl''⟩
        show firstTooLong (t :: rest) s = some (s + (j + 1))
        simp only [firstTooLong, if_neg hl]
        rw [hj]
        congr 1
        omega

/-- Reading a key after deleting a different key is unchanged. -/
theorem objGet_objDel_ne (k k' : String) (h : k' ≠ k) :
    ∀ l : Obj, objGet (objDel l k) k' = objGet l k' := by
  intro l
  induction l with
  | nil => rfl
  | cons a rest ih =>
    obtain ⟨k0, v0⟩ := a
    by_cases h0 : k0 = k
    · have h1 : ¬ (k0 = k') := fun hh => h (hh.symm.trans h0)
      simp only [objDel, if_pos h0, objGet, if_neg h1]
      exact ih
    · simp only [objDel, if_neg h0, objGet]
      by_cases h1 : k0 = k'
      · simp only [if_pos h1]
      · simp only [if_neg h1]
        exact ih

/-- Reading the key just written yields the written value. -/
theorem objGet_objSet_self (l : Obj) (k : String) (v : JsValue) :
    objGet (objSet l k v) k = some v := by
  unfold objSet
  induction l with
  | nil => simp [objDel, objGet]
  | cons a rest ih =>
    obtain ⟨k0, v0⟩ := a
    by_cases h0 : k0 = k
    · simp only [objDel, if_pos h0]
      exact ih
    · simp only [objDel, if_neg h0, List.cons_append, objGet, if_neg h0]
      exact ih

/-- Reading a key after writing a different key is unchanged. -/
theorem objGet_objSet_ne (l : Obj) (k k' : String) (v : JsValue) (h : k' ≠ k) :
    objGet (objSet l k v) k' = objGet l k' := by
  have hkk : ¬ (k = k') := fun hh => h hh.symm
  unfold objSet
  induction l with
  | nil => simp [objDel, objGet, hkk]
  | cons a rest ih =>
    obtain ⟨k0, v0⟩ := a
    by_cases h0 : k0 = k
    · have h1 : ¬ (k0 = k') := fun hh => h (hh.symm.trans h0)
      simp only [objDel, if_pos h0, objGet, if_neg h1]
      exact ih
    · simp only [objDel, if_neg h0, List.cons_append, objGet]
      by_cases h1 : k0 = k'
      · simp only [if_pos h1]
      · simp only [if_neg h1]
        exact ih

/-- Reading a key absent from a spread list passes through to the base
object. -/
theorem objGet_objSetAll_notMem (k' : String) :
    ∀ (entries : List (String × JsValue)) (l : Obj), k' ∉ entries.map Prod.fst →
      objGet (objSetAll l entries) k' = objGet l k' := by
  intro entries
  induction entries with
  | nil => intro l _; rfl
  | cons a rest ih =>
    intro l h
    obtain ⟨ak, av⟩ := a
    obtain ⟨h1, h2⟩ : k' ≠ ak ∧ k' ∉ rest.map Prod.fst := by
      simpa [not_or] using h
    show objGet (objSetAll (objSet l ak av) rest) k' = objGet l k'
    rw [ih (objSet l ak av) h2, objGet_objSet_ne l ak k' av h1]

/-- Reading a key bound in a spread list with unique keys yields its
value. -/
theorem objGet_objSetAll_mem (k : String) (v : JsValue) :
    ∀ (entries : List (String × JsValue)) (l : Obj),
      (entries.map Prod.fst).Nodup → (k, v) ∈ entries →
      objGet (objSetAll l entries) k = some v := by
  intro entries
  induction entries with
  | nil => intro l _ hm; simp at hm
  | cons a rest ih =>
    intro l hnd hm
    obtain ⟨ak, av⟩ := a
    have hnd0 : (ak :: rest.map Prod.fst).Nodup := by simpa using hnd
    rcases List.mem_cons.mp hm with heq | hmem
    · cases heq
      show objGet (objSetAll (objSet l k v) rest) k = some v
      rw [objGet_objSetAll_notMem k rest (objSet l k v) (List.nodup_cons.mp hnd0).1]
      exact objGet_objSet_self l k v
    · exact ih (objSet l ak av) (List.nodup_cons.mp hnd0).2 hmem

/-- Loop invariant of withRetry: starting at attempt a with enough fuel,
if the operation fails retryably on attempts a..a+k-1 and succeeds on
attempt a+k, the loop returns the success value after exactly k+1 further
invocations. -/
theorem withRetryGo_ok {T : Type} (op : Nat → Except JsError T)
    (cfg : RetryOptions) (v : T) :
    ∀ (k a fuel count : Nat) (lastE : Option JsError) (delays : List Nat),
      (a : Int) + (fuel : Int) = cfg.maxAttempts + 1 →
      k + 1 ≤ fuel →
      (∀ i, a ≤ i → i < a + k →
        ∃ e, op i = Except.error e ∧ isRetryable cfg e = true) →
      op (a + k) = Except.ok v →
      (withRetryGo op cfg fuel a count lastE delays).1 = RetryOutcome.ok v ∧
        (withRetryGo op cfg fuel a count lastE delays).2.1 = count + k + 1 := by
  intro k
  induction k with
  | zero =>
    intro a fuel count lastE delays hrel hfuel _ hsucc
    obtain ⟨f, rfl⟩ : ∃ f, fuel = f + 1 := ⟨fuel - 1, by omega⟩
    rw [Nat.add_zero] at hsucc
    simp [withRetryGo, hsucc]
  | succ k ih =>
    intro a fuel count lastE delays hrel hfuel hfail hsucc
    obtain ⟨f, rfl⟩ : ∃ f, fuel = f + 1 := ⟨fuel - 1, by omega⟩
    obtain ⟨e, he, hr⟩ := hfail a (le_refl a) (by omega)
    have hne : ¬ ((a : Int) = cfg.maxAttempts) := by omega
    have heq :
        withRetryGo op cfg (f + 1) a count lastE delays =
          withRetryGo op cfg f (a + 1) (count + 1) (some e)
            (computeDelay cfg e a :: delays) := by
      simp [withRetryGo, he, hne, hr]
    rw [heq]
    have hres := ih (a + 1) f (count + 1) (some e)
      (computeDelay cfg e a :: delays) (by push_cast; push_cast at hrel; omega)
      (by omega)
      (fun i h1 h2 => hfail i (by omega) (by omega))
      (by rw [show a + 1 + k = a + (k + 1) from by omega]; exact hsucc)
    exact ⟨hres.1, by rw [hres.2]; omega⟩

/-- Scan invariant of the inner candidate loop with a nonempty accumulator
whose element precedes every remaining index: the result is the best-scored
element, preferring the accumulator and then earlier indices on ties. -/
theorem findBestGo_acc (lambda : Rat) (n : Nat) (selected : List Nat) :
    ∀ (L : List Nat) (b : Nat), L.Pairwise (· < ·) → (∀ j ∈ L, b < j) →
      ∃ m, findBestGo lambda n selected L (some (b, mmrScore lambda n b)) =
          some (m, mmrScore lambda n m) ∧
        (m = b ∨ (m ∈ L ∧ m ∉ selected)) ∧
        (∀ j ∈ L, j ∉ selected →
          mmrScore lambda n j ≤ mmrScore lambda n m ∧
          (mmrScore lambda n j = mmrScore lambda n m → m ≤ j)) ∧
        mmrScore lambda n b ≤ mmrScore lambda n m ∧
        (mmrScore lambda n b = mmrScore lambda n m → m = b) := by
  intro L
  induction L with
  | nil =>
    intro b _ _
    exact ⟨b, rfl, Or.inl rfl, by simp, le_refl _, fun _ => rfl⟩
  | cons i L ih =>
    intro b hp hb
    have hp1 : ∀ j ∈ L, i < j := fun j hj => (List.pairwise_cons.mp hp).1 j hj
    have hp2 : L.Pairwise (· < ·) := (List.pairwise_cons.mp hp).2
    have hbi : b < i := hb i (List.mem_cons_self i L)
    have hb' : ∀ j ∈ L, b < j := fun j hj => hb j (List.mem_cons_of_mem i hj)
    by_cases hsel : i ∈ selected
    · obtain ⟨m, heq, hmem, hmax, hbb, hbtie⟩ := ih b hp2 hb'
      refine ⟨m, ?_, ?_, ?_, hbb, hbtie⟩
      · simpa [findBestGo, hsel] using heq
      · rcases hmem with h | ⟨h1, h2⟩
        · exact Or.inl h
        · exact Or.inr ⟨List.mem_cons_of_mem i h1, h2⟩
      · intro j hj hjs
        rcases List.mem_cons.mp hj with rfl | hj'
        · exact absurd hsel hjs
        · exact hmax j hj' hjs
    · by_cases hlt : mmrScore lambda n b < mmrScore lambda n i
      · obtain ⟨m, heq, hmem, hmax, hbb, hbtie⟩ := ih i hp2 hp1
        refine ⟨m, ?_, ?_, ?_, ?_, ?_⟩
        · simpa [findBestGo, hsel, hlt] using heq
        · rcases hmem with rfl | ⟨h1, h2⟩
          · exact Or.inr ⟨List.mem_cons_self m L, hsel⟩
          · exact Or.inr ⟨List.mem_cons_of_mem i h1, h2⟩
        · intro j hj hjs
          rcases List.mem_cons.mp hj with rfl | hj'
          · exact ⟨hbb, fun ht => (hbtie ht) ▸ le_refl _⟩
          · exact hmax j hj' hjs
        · exact le_of_lt (lt_of_lt_of_le hlt hbb)
        · intro ht
          exact absurd ht (ne_of_lt (lt_of_lt_of_le hlt hbb))
      · obtain ⟨m, heq, hmem, hmax, hbb, hbtie⟩ := ih b hp2 hb'
        have hile : mmrScore lambda n i ≤ mmrScore lambda n b := le_of_not_lt hlt
        refine ⟨m, ?_, ?_, ?_, hbb, hbtie⟩
        · simpa [findBestGo, hsel, hlt] using heq
        · rcases hmem with h | ⟨h1, h2⟩
          · exact Or.inl h
          · exact Or.inr ⟨List.mem_cons_of_mem i h1, h2⟩
        · intro j hj hjs
          rcases List.mem_cons.mp hj with rfl | hj'
          · refine ⟨le_trans hile hbb, fun ht => ?_⟩
            have hbm : mmrScore lambda n b = mmrScore lambda n m :=
              le_antisymm hbb (ht ▸ hile)
            exact le_of_lt ((hbtie hbm) ▸ hbi)
          · exact hmax j hj' hjs

/-- Scan invariant of the inner candidate loop started with the
minus-infinity accumulator over a strictly increasing index list. -/
theorem findBestGo_none (lambda : Rat) (n : Nat) (selected : List Nat) :
    ∀ L : List Nat, L.Pairwise (· < ·) →
      (findBestGo lambda n selected L none = none ∧ ∀ j ∈ L, j ∈ selected) ∨
      (∃ m, findBestGo lambda n selected L none = some (m, mmrScore lambda n m) ∧
        m ∈ L ∧ m ∉ selected ∧
        ∀ j ∈ L, j ∉ selected →
          mmrScore lambda n j ≤ mmrScore lambda n m ∧
          (mmrScore lambda n j = mmrScore lambda n m → m ≤ j)) := by
  intro L
  induction L with
  | nil => exact fun _ => Or.inl ⟨rfl, by simp⟩
  | cons i L ih =>
    intro hp
    have hp1 : ∀ j ∈ L, i < j := fun j hj => (List.pairwise_cons.mp hp).1 j hj
    have hp2 : L.Pairwise (· < ·) := (List.pairwise_cons.mp hp).2
    by_cases hsel : i ∈ selected
    · rcases ih hp2 with ⟨heq, hall⟩ | ⟨m, heq, hm1, hm2, hmax⟩
      · refine Or.inl ⟨by simpa [findBestGo, hsel] using heq, ?_⟩
        intro j hj
        rcases List.mem_cons.mp hj with rfl | hj'
        · exact hsel
        · exact hall j hj'
      · refine Or.inr ⟨m, by simpa [findBestGo, hsel] using heq,
          List.mem_cons_of_mem i hm1, hm2, ?_⟩
        intro j hj hjs
        rcases List.mem_cons.mp hj with rfl | hj'
        · exact absurd hsel hjs
        · exact hmax j hj' hjs
    · obtain ⟨m, heq, hmem, hmax, hbb, hbtie⟩ :=
        findBestGo_acc lambda n selected L i hp2 hp1
      refine Or.inr ⟨m, by simpa [findBestGo, hsel] using heq, ?_, ?_, ?_⟩
      · rcases hmem with rfl | ⟨h1, _⟩
        · exact List.mem_cons_self m L
        · exact List.mem_cons_of_mem i h1
      · rcases hmem with rfl | ⟨_, h2⟩
        · exact hsel
        · exact h2
      · intro j hj hjs
        rcases List.mem_cons.mp hj with rfl | hj'
        · exact ⟨hbb, fun ht => (hbtie ht) ▸ le_refl _⟩
        · exact hmax j hj' hjs

/-- Correctness of one selection round: findBest returns none exactly when
every candidate is selected, and otherwise returns the unselected candidate
with maximal rank score, earliest rank on ties. -/
theorem findBest_spec (lambda : Rat) (n : Nat) (selected : List Nat) :
    (findBest lambda n selected = none → ∀ j, j < n → j ∈ selected) ∧
    (∀ m, findBest lambda n selected = some m →
      m < n ∧ m ∉ selected ∧
      ∀ j, j < n → j ∉ selected →
        mmrScore lambda n j ≤ mmrScore lambda n m ∧
        (mmrScore lambda n j = mmrScore lambda n m → m ≤ j)) := by
  have hpw : (List.range n).Pairwise (· < ·) := List.pairwise_lt_range n
  rcases findBestGo_none lambda n selected (List.range n) hpw with
    ⟨heq, hall⟩ | ⟨m0, heq, hm1, hm2, hmax⟩
  · constructor
    · intro _ j hj
      exact hall j (List.mem_range.mpr hj)
    · intro m hm
      rw [findBest, heq] at hm
      simp at hm
  · constructor
    · intro hnone
      rw [findBest, heq] at hnone
      simp at hnone
    · intro m hm
      rw [findBest, heq] at hm
      simp at hm
      subst hm
      refine ⟨List.mem_range.mp hm1, hm2, ?_⟩
      intro j hj hjs
      exact hmax j (List.mem_range.mpr hj) hjs

/-- Existence of a pick while unselected candidates remain. -/
theorem findBest_isSome (lambda : Rat) (n : Nat) (sel : List Nat)
    (hnd : sel.Nodup) (hlen : sel.length < n) :
    ∃ m, findBest lambda n sel = some m := by
  cases hF : findBest lambda n sel with
  | some m => exact ⟨m, rfl⟩
  | none =>
    exfalso
    have hcov := (findBest_spec lambda n sel).1 hF
    have hsub : Finset.range n ⊆ sel.toFinset := by
      intro x hx
      rw [List.mem_toFinset]
      exact hcov x (Finset.mem_range.mp hx)
    have hcard := Finset.card_le_card hsub
    rw [Finset.card_range, List.toFinset_card_of_nodup hnd] at hcard
    omega


/-- Invariant of the outer selection loop: the result extends the input
selection, stays duplicate-free inside the candidate range, reaches length
min k n given enough fuel, and every element appended after the input
prefix is the unselected argmax (earliest rank on ties) relative to the
selection before it. -/
theorem mmrLoop_spec (lambda : Rat) (n k : Nat) :
    ∀ (fuel : Nat) (sel : List Nat),
      sel.Nodup → (∀ i ∈ sel, i < n) →
      min k n ≤ sel.length + fuel →
      (∃ t, mmrLoop lambda n k fuel sel = sel ++ t) ∧
      (mmrLoop lambda n k fuel sel).Nodup ∧
      (∀ i ∈ mmrLoop lambda n k fuel sel, i < n) ∧
      (sel.length ≤ min k n → (mmrLoop lambda n k fuel sel).length = min k n) ∧
      (∀ m i, (mmrLoop lambda n k fuel sel).get? m = some i → sel.length ≤ m →
        i < n ∧ i ∉ (mmrLoop lambda n k fuel sel).take m ∧
        ∀ j, j < n → j ∉ (mmrLoop lambda n k fuel sel).take m →
          mmrScore lambda n j ≤ mmrScore lambda n i ∧
          (mmrScore lambda n j = mmrScore lambda n i → i ≤ j)) := by
  intro fuel
  induction fuel with
  | zero =>
    intro sel hnd hall hmin
    refine ⟨⟨[], by simp [mmrLoop]⟩, by simpa [mmrLoop] using hnd,
      by simpa [mmrLoop] using hall, ?_, ?_⟩
    · intro hle
      simp only [mmrLoop]
      omega
    · intro m i hget hm
      exfalso
      simp only [mmrLoop] at hget
      rw [List.get?_eq_none.mpr hm] at hget
      exact Option.noConfusion hget
  | succ fuel ih =>
    intro sel hnd hall hmin
    by_cases hcond : sel.length < k ∧ sel.length < n
    · obtain ⟨m0, hm0⟩ := findBest_isSome lambda n sel hnd hcond.2
      obtain ⟨hm0n, hm0s, hm0max⟩ := (findBest_spec lambda n sel).2 m0 hm0
      have hstep : mmrLoop lambda n k (fuel + 1) sel =
          mmrLoop lambda n k fuel (sel ++ [m0]) := by
        simp [mmrLoop, hcond, hm0]
      have hnd' : (sel ++ [m0]).Nodup := by
        rw [List.nodup_append]
        refine ⟨hnd, List.nodup_singleton m0, ?_⟩
        intro a ha hb
        rw [List.mem_singleton] at hb
        exact hm0s (hb ▸ ha)
      have hall' : ∀ i ∈ sel ++ [m0], i < n := by
        intro i hi
        rcases List.mem_append.mp hi with h | h
        · exact hall i h
        · rw [List.mem_singleton] at h
          exact h ▸ hm0n
      have hmin' : min k n ≤ (sel ++ [m0]).length + fuel := by
        simp only [List.length_append, List.length_singleton]
        omega
      obtain ⟨⟨t, ht⟩, hnd2, hall2, hlen2, hpick⟩ := ih (sel ++ [m0]) hnd' hall' hmin'
      have hout : mmrLoop lambda n k fuel (sel ++ [m0]) = sel ++ (m0 :: t) := by
        rw [ht, List.append_assoc]
        rfl
      rw [hstep]
      refine ⟨⟨m0 :: t, hout⟩, hnd2, hall2, ?_, ?_⟩
      · intro _
        apply hlen2
        simp only [List.length_append, List.length_singleton]
        omega
      · intro m i hget hm
        by_cases hge : sel.length + 1 ≤ m
        · exact hpick m i hget (by simpa using hge)
        · have hme : m = sel.length := by omega
          subst hme
          have hgm : (mmrLoop lambda n k fuel (sel ++ [m0])).get? sel.length
              = some m0 := by
            rw [hout, List.get?_append_right (le_refl _)]
            simp
          have him : i = m0 := by
            rw [hget] at hgm
            exact (Option.some.injEq _ _).mp hgm
          have htake : (mmrLoop lambda n k fuel (sel ++ [m0])).take sel.length
              = sel := by
            rw [hout, List.take_left]
          rw [htake, him]
          exact ⟨hm0n, hm0s, hm0max⟩
    · have hstop : mmrLoop lambda n k (fuel + 1) sel = sel := by
        simp only [mmrLoop]
        rw [if_neg hcond]
      rw [hstop]
      refine ⟨⟨[], by simp⟩, hnd, hall, ?_, ?_⟩
      · intro hle
        omega
      · intro m i hget hm
        exfalso
        rw [List.get?_eq_none.mpr hm] at hget
        exact Option.noConfusion hget

/-! Claim theorems. -/

/-- C2: an operation that fails k times with a retryable error and then
succeeds, with k below maxAttempts, makes withRetry return the success
value after exactly k+1 invocations; an operation whose first failure is
non-retryable is invoked exactly once and its failure is re-raised. -/
theorem withRetry_attempt_counts :
    (∀ (T : Type) (op : Nat → Except JsError T) (cfg : RetryOptions)
        (k : Nat) (v : T),
      (k : Int) + 1 ≤ cfg.maxAttempts →
      (∀ i, 1 ≤ i → i ≤ k →
        ∃ e, op i = Except.error e ∧ isRetryable cfg e = true) →
      op (k + 1) = Except.ok v →
      (withRetry op cfg).1 = RetryOutcome.ok v ∧
        (withRetry op cfg).2.1 = k + 1) ∧
    (∀ (T : Type) (op : Nat → Except JsError T) (cfg : RetryOptions)
        (e : JsError),
      1 ≤ cfg.maxAttempts →
      op 1 = Except.error e →
      isRetryable cfg e = false →
      (withRetry op cfg).1 = RetryOutcome.threw e ∧
        (withRetry op cfg).2.1 = 1) := by
  constructor
  · intro T op cfg k v hk hfail hsucc
    have htn : (cfg.maxAttempts.toNat : Int) = cfg.maxAttempts := by omega
    have h := withRetryGo_ok op cfg v k 1 cfg.maxAttempts.toNat 0 none []
      (by omega) (by omega)
      (fun i h1 h2 => hfail i h1 (by omega))
      (by rw [Nat.add_comm]; exact hsucc)
    unfold withRetry
    exact ⟨h.1, by rw [h.2]; omega⟩
  · intro T op cfg e hmax hop hr
    have h1 : cfg.maxAttempts.toNat = (cfg.maxAttempts.toNat - 1) + 1 := by omega
    unfold withRetry
    rw [h1]
    by_cases hlast : (1 : Int) = cfg.maxAttempts
    · simp [withRetryGo, hop, hlast]
    · simp [withRetryGo, hop, hlast, hr]

/-- C2 witness: an operation failing retryably once then succeeding is
invoked twice under the default policy; one failing non-retryably is
invoked once. -/
theorem withRetry_attempt_counts_witness :
    ((withRetry flakyOp DEFAULT_RETRY_OPTIONS).1 = RetryOutcome.ok 7 ∧
      (withRetry flakyOp DEFAULT_RETRY_OPTIONS).2.1 = 1 + 1) ∧
    ((withRetry brokenOp DEFAULT_RETRY_OPTIONS).1 = RetryOutcome.threw plainErr ∧
      (withRetry brokenOp DEFAULT_RETRY_OPTIONS).2.1 = 1) :=
  ⟨withRetry_attempt_counts.1 Nat flakyOp DEFAULT_RETRY_OPTIONS 1 7
      (by decide)
      (fun i h1 h2 => by
        have hi : i = 1 := by omega
        subst hi
        exact ⟨connErr, rfl, by decide⟩)
      rfl,
    withRetry_attempt_counts.2 Nat brokenOp DEFAULT_RETRY_OPTIONS plainErr
      (by decide) rfl (by decide)⟩

/-- C7 counterexample: a transport failure that is an Error instance with
no recognized status, name or code is returned unchanged by
handleLambdaDBError, so a caller of a façade method observes a raw
transport error outside the typed taxonomy, contradicting the claim. -/
theorem classifier_passthrough_counterexample :
    handleLambdaDBError fetchRaw = TypedError.passthrough fetchRaw ∧
      isTaxonomy (handleLambdaDBError fetchRaw) = false := by
  constructor
  · decide
  · decide

set_option maxHeartbeats 4000000 in
/-- C7 amended: failures carrying a recognized HTTP status, a known
service-error name, or a connection-failure system code are classified
into the typed taxonomy; failures recognized by none of these are
re-raised unchanged when they are Error instances (so callers can observe
raw errors) and wrapped in a generic error otherwise; and in general every
classified failure is a taxonomy error, a passthrough, or a wrapped value
(no method returns a sentinel error value). -/
theorem classifier_amended :
    (∀ (e : RawError) (s : Nat), jsOrNum e.status e.statusCode = some s →
      s ∈ [400, 401, 403, 404, 429, 500, 502, 503, 504] →
      isTaxonomy (handleLambdaDBError e) = true) ∧
    (∀ e : RawError,
      (e.name = "LambdaDBError" ∨ e.name = "UnauthenticatedError" ∨
        e.name = "ResourceNotFoundError") →
      isTaxonomy (handleLambdaDBError e) = true) ∧
    (∀ e : RawError,
      (e.code = some "ECONNREFUSED" ∨ e.code = some "ENOTFOUND") →
      isTaxonomy (handleLambdaDBError e) = true) ∧
    (∀ e : RawError,
      (∀ s, jsOrNum e.status e.statusCode = some s →
        s ∉ ([400, 401, 403, 404, 429, 500, 502, 503, 504] : List Nat)) →
      e.name ≠ "LambdaDBError" → e.name ≠ "UnauthenticatedError" →
      e.name ≠ "ResourceNotFoundError" →
      e.code ≠ some "ECONNREFUSED" → e.code ≠ some "ENOTFOUND" →
      handleLambdaDBError e =
        (if e.isErrorInstance then TypedError.passthrough e
          else TypedError.wrapped e)) ∧
    (∀ e : RawError,
      isTaxonomy (handleLambdaDBError e) = true ∨
        handleLambdaDBError e = TypedError.passthrough e ∨
        handleLambdaDBError e = TypedError.wrapped e) := by
  refine ⟨?_, ?_, ?_, ?_, ?_⟩
  · intro e s hst hmem
    fin_cases hmem <;>
      · unfold handleLambdaDBError
        simp only [hst]
        norm_num [truthyNum, isTaxonomy]
  · intro e hname
    have hb : isTaxonomy (handleByNameOrCode e) = true := by
      rcases hname with h | h | h <;> simp [handleByNameOrCode, h, isTaxonomy]
    unfold handleLambdaDBError
    dsimp only
    split_ifs <;> first | rfl | exact hb
  · intro e hcode
    have hb : isTaxonomy (handleByNameOrCode e) = true := by
      unfold handleByNameOrCode
      rcases hcode with h | h <;>
        · rw [h]
          split_ifs <;> first | rfl | simp_all
    unfold handleLambdaDBError
    dsimp only
    split_ifs <;> first | rfl | exact hb
  · intro e hst hn1 hn2 hn3 hc1 hc2
    have hb : handleByNameOrCode e =
        (if e.isErrorInstance then TypedError.passthrough e
          else TypedError.wrapped e) := by
      unfold handleByNameOrCode
      rw [if_neg (by simp [hn1, hn2]), if_neg (by simp [hn3]),
        if_neg (by simp [hc1, hc2])]
    unfold handleLambdaDBError
    dsimp only
    by_cases ht : truthyNum (jsOrNum e.status e.statusCode) = true
    · rw [if_pos ht]
      obtain ⟨s0, hs0⟩ : ∃ s0, jsOrNum e.status e.statusCode = some s0 := by
        cases hsj : jsOrNum e.status e.statusCode with
        | none => rw [hsj] at ht; simp [truthyNum] at ht
        | some s0 => exact ⟨s0, rfl⟩
      have hmem := hst s0 hs0
      simp only [List.mem_cons, List.mem_singleton, not_or] at hmem
      obtain ⟨m1, m2, m3, m4, m5, m6, m7, m8, m9⟩ := hmem
      rw [hs0]
      simp only [Option.getD_some]
      rw [if_neg (by simp [m2, m3]), if_neg m4, if_neg m1, if_neg m5,
        if_neg (by simp [m6, m7, m8, m9])]
      exact hb
    · rw [if_neg ht]
      exact hb
  · intro e
    have hb : isTaxonomy (handleByNameOrCode e) = true ∨
        handleByNameOrCode e = TypedError.passthrough e ∨
        handleByNameOrCode e = TypedError.wrapped e := by
      unfold handleByNameOrCode
      split_ifs <;>
        first
          | exact Or.inl rfl
          | exact Or.inr (Or.inl rfl)
          | exact Or.inr (Or.inr rfl)
    unfold handleLambdaDBError
    dsimp only
    split_ifs <;> first | exact Or.inl rfl | exact hb

/-- C7 amended witness: a 404 failure, a known-name failure and a
connection-code failure are classified into the taxonomy; the unrecognized
fetch failure is an Error instance and passes through unchanged, and it
falls into the passthrough alternative of the trichotomy. -/
theorem classifier_amended_witness :
    isTaxonomy (handleLambdaDBError
        { status := some 404, message := some "gone" }) = true ∧
      isTaxonomy (handleLambdaDBError namedRaw) = true ∧
      isTaxonomy (handleLambdaDBError codeRaw) = true ∧
      handleLambdaDBError fetchRaw =
        (if fetchRaw.isErrorInstance then TypedError.passthrough fetchRaw
          else TypedError.wrapped fetchRaw) ∧
      (isTaxonomy (handleLambdaDBError fetchRaw) = true ∨
        handleLambdaDBError fetchRaw = TypedError.passthrough fetchRaw ∨
        handleLambdaDBError fetchRaw = TypedError.wrapped fetchRaw) :=
  ⟨classifier_amended.1 { status := some 404, message := some "gone" } 404
      (by decide) (by decide),
    classifier_amended.2.1 namedRaw (by decide),
    classifier_amended.2.2.1 codeRaw (by decide),
    classifier_amended.2.2.2.1 fetchRaw
      (fun s hs => by simp [jsOrNum, fetchRaw] at hs)
      (by decide) (by decide) (by decide) (by decide) (by decide),
    classifier_amended.2.2.2.2 fetchRaw⟩

/-- C1 (code bug): the claim says a FAILED status observed before the
timeout makes waitForCollectionActive fail immediately at that poll with a
status-naming terminal error.  In the source the status throw sits inside
the try block, so it is caught by the surrounding catch and swallowed while
the elapsed time is below the timeout: against the sequence CREATING then
FAILED forever (instantaneous fetches, 30000 ms timeout, 1000 ms interval)
the loop keeps polling and ends with the timeout error, never the
status-naming one. -/
theorem waitForCollectionActive_swallows_failed_status :
    waitForCollectionActive 30000 1000 failedPollSeq 0 = WaitOutcome.timeoutExpired ∧
      waitForCollectionActive 30000 1000 failedPollSeq 0 ≠
        WaitOutcome.statusError "FAILED" := by
  constructor
  · decide
  · decide

/-- C10: with maxAttempts at most 0 the for loop of withRetry never runs,
the operation is never invoked, no delay is slept, and the function throws
the never-assigned lastError variable (modelled as threwUndefined), rather
than returning a result or a meaningful typed error. -/
theorem withRetry_nonpositive_attempts {T : Type} (op : Nat → Except JsError T)
    (cfg : RetryOptions) (h : cfg.maxAttempts ≤ 0) :
    withRetry op cfg = (RetryOutcome.threwUndefined, 0, []) := by
  unfold withRetry
  rw [Int.toNat_of_nonpos h]
  rfl

/-- C10 witness: concrete evaluation at maxAttempts = 0. -/
theorem withRetry_nonpositive_attempts_witness :
    withRetry (fun _ => (Except.ok 1 : Except JsError Nat))
        { maxAttempts := 0, initialDelay := 1000, maxDelay := 10000,
          backoffMultiplier := 2, retryableErrors := [] } =
      (RetryOutcome.threwUndefined, 0, []) :=
  withRetry_nonpositive_attempts _ _ (by decide)

/-- C4 counterexample: with the default policy (maxDelay 10000) and a
retryable rate-limit failure carrying a 20 second hint on attempt 1, the
slept delay is 10000 ms, not the uncapped 20000 ms the claim predicts: the
source applies the maxDelay cap after the rate-limit override. -/
theorem rateLimit_delay_is_capped :
    (withRetry rlOp DEFAULT_RETRY_OPTIONS).2.2 = [10000] ∧
      (withRetry rlOp DEFAULT_RETRY_OPTIONS).2.2 ≠ [20000] := by
  constructor
  · decide
  · decide

/-- C4 amended: when withRetry computes the delay after catching a
rate-limit error with a truthy retryAfterSeconds hint, the delay equals the
hint converted to milliseconds capped by policy.maxDelay. -/
theorem rateLimit_delay_amended (cfg : RetryOptions) (e : JsError)
    (attempt r : Nat) (h1 : e.isRateLimit = true) (h2 : e.retryAfter = some r)
    (h3 : r ≠ 0) :
    computeDelay cfg e attempt = min (r * 1000) cfg.maxDelay := by
  unfold computeDelay
  rw [h1, h2]
  simp [h3]

/-- C4 amended witness: concrete evaluation at the 20 second hint. -/
theorem rateLimit_delay_amended_witness :
    computeDelay DEFAULT_RETRY_OPTIONS rlErr 1 = min (20 * 1000) 10000 :=
  rateLimit_delay_amended _ _ 1 20 (by decide) (by decide) (by decide)

/-- C6 counterexample: when the list call fails in both invocations (an
outcome consistent with the collection already existing, since a failed
list reveals nothing), each call falls back to one createCollection
attempt, so two sequential calls perform two create attempts, not at most
one. -/
theorem ensureExists_two_create_attempts :
    consistentWithExisting "docs" raceEnv = true ∧
      ¬ ((ensureCollectionExists "docs" raceEnv).createCalls +
          (ensureCollectionExists "docs" raceEnv).createCalls ≤ 1) := by
  constructor
  · decide
  · decide

/-- C6 amended: against outcomes consistent with the collection already
existing, each of the two sequential ensureCollectionExists calls performs
at most one create attempt and never fails, and when both list calls
succeed there are no create attempts at all. -/
theorem ensureExists_amended (name : String) (e1 e2 : EnsureEnv)
    (h1 : consistentWithExisting name e1 = true)
    (h2 : consistentWithExisting name e2 = true) :
    (ensureCollectionExists name e1).fails = false ∧
      (ensureCollectionExists name e2).fails = false ∧
      (ensureCollectionExists name e1).createCalls ≤ 1 ∧
      (ensureCollectionExists name e2).createCalls ≤ 1 ∧
      (∀ names1 names2, e1.listRes = ListOutcome.ok names1 →
        e2.listRes = ListOutcome.ok names2 →
        (ensureCollectionExists name e1).createCalls +
          (ensureCollectionExists name e2).createCalls = 0) := by
  obtain ⟨l1, c1⟩ := e1
  obtain ⟨l2, c2⟩ := e2
  cases l1 <;> cases l2 <;>
    simp_all [ensureCollectionExists, consistentWithExisting]

/-- C6 amended witness: concrete evaluation at a successful listing. -/
theorem ensureExists_amended_witness :
    (ensureCollectionExists "docs" listedEnv).fails = false ∧
      (ensureCollectionExists "docs" listedEnv).fails = false ∧
      (ensureCollectionExists "docs" listedEnv).createCalls ≤ 1 ∧
      (ensureCollectionExists "docs" listedEnv).createCalls ≤ 1 ∧
      (∀ names1 names2, listedEnv.listRes = ListOutcome.ok names1 →
        listedEnv.listRes = ListOutcome.ok names2 →
        (ensureCollectionExists "docs" listedEnv).createCalls +
          (ensureCollectionExists "docs" listedEnv).createCalls = 0) :=
  ensureExists_amended "docs" listedEnv listedEnv (by decide) (by decide)

/-- C3 counterexample: a two-vector batch whose second vector has the wrong
length passes the addVectors validation (only the first vector is checked)
and reaches the network phase instead of failing with a dimension-mismatch
error as the claim requires for every vector of the batch. -/
theorem addVectors_checks_only_first_vector :
    (addVectors cfgDim3 genIdModel [[1, 2, 3], [4, 5]] [docA, docA]).toOption.isSome
      = true := by
  decide

/-- C3 amended: addVectors dimension-checks only the first vector of a
non-empty batch: a first vector of wrong length is rejected with the
dimension-mismatch error naming both the configured dimensionality and the
vector's length, before any network call; and
similaritySearchVectorWithScore rejects every query vector of wrong length
the same way. -/
theorem dimension_validation_amended :
    (∀ (cfg : StoreConfig) (genId : Nat → String) (v : List Int)
        (vs : List (List Int)) (documents : List SrcDoc),
      (v :: vs).length = documents.length →
      v.length ≠ cfg.vectorDimensions →
      addVectors cfg genId (v :: vs) documents =
        Except.error (dimMismatchMsg cfg.vectorDimensions v.length)) ∧
    (∀ (cfg : StoreConfig) (query : List Int) (k : Nat),
      query.length ≠ cfg.vectorDimensions →
      similaritySearchRequest cfg query k =
        Except.error (dimMismatchMsg cfg.vectorDimensions query.length)) := by
  constructor
  · intro cfg genId v vs documents hlen hdim
    unfold addVectors
    rw [if_neg (by simp [hlen])]
    simp [validateVectorDimensions, hdim]
  · intro cfg query k hdim
    unfold similaritySearchRequest
    simp [validateVectorDimensions, hdim]

/-- C3 amended witness: concrete evaluation with a short first vector and a
short query. -/
theorem dimension_validation_amended_witness :
    addVectors cfgDim3 genIdModel [[1, 2]] [docA] =
        Except.error (dimMismatchMsg 3 2) ∧
      similaritySearchRequest cfgDim3 [1, 2] 4 =
        Except.error (dimMismatchMsg 3 2) :=
  ⟨dimension_validation_amended.1 cfgDim3 genIdModel [1, 2] [] [docA]
      (by decide) (by decide),
    dimension_validation_amended.2 cfgDim3 [1, 2] 4 (by decide)⟩

/-- C8: a document list containing a text longer than 50000 characters
makes addDocuments throw the too-long error naming the index of an
offending document before the embedding capability is invoked (the tooLong
outcome precedes the proceed stage, which alone invokes embedDocuments),
and the empty list is a no-op performing no embedding and no network
call. -/
theorem addDocuments_length_gate :
    (∀ documents : List SrcDoc,
        (∃ d ∈ documents, 50 * 1000 < d.pageContent.length) →
        ∃ i, addDocumentsCheck documents = AddDocsOutcome.tooLong i ∧
          ∃ d, documents.get? i = some d ∧ 50 * 1000 < d.pageContent.length) ∧
      addDocumentsCheck [] = AddDocsOutcome.noop := by
  constructor
  · intro documents h
    obtain ⟨d, hd, hl⟩ := h
    have hne : documents ≠ [] := by
      rintro rfl
      simp at hd
    have hmap : ∃ t ∈ documents.map SrcDoc.pageContent, 50 * 1000 < t.length :=
      ⟨d.pageContent, List.mem_map_of_mem _ hd, hl⟩
    obtain ⟨j, hj, t, ht, hlt⟩ := firstTooLong_spec _ 0 hmap
    rw [List.get?_map] at ht
    obtain ⟨d', hd', hpc⟩ : ∃ d', documents.get? j = some d' ∧ d'.pageContent = t := by
      cases hg : documents.get? j with
      | none => rw [hg] at ht; simp at ht
      | some x => rw [hg] at ht; simp at ht; exact ⟨x, rfl, ht⟩
    refine ⟨j, ?_, d', hd', hpc ▸ hlt⟩
    unfold addDocumentsCheck
    rw [if_neg (by simpa using hne)]
    simp only [hj, Nat.zero_add]
  · rfl

/-- C5 counterexample: a metadata key equal to the text-field name is
spread last in the outbound wire document and overwrites the stored
content, so the round trip returns that metadata value instead of
recovering doc.content exactly: with default field names, content hello and
metadata content maps to meta, the round trip yields meta. -/
theorem roundtrip_loses_colliding_content :
    (lambdaDBToDocument
        (mkWireDoc cfgDim3 "doc_1" "hello" [1, 2, 3]
          [("content", JsValue.str "meta")])
        cfgDim3.textField).pageContent ≠ JsValue.str "hello" := by
  decide

/-- C5 amended: when no metadata key equals the text-field name or the
literal fallback names content and pageContent, and the vector-field name
is none of these either, the round trip recovers doc.content exactly; and
every metadata entry whose key differs from the text-field name, the
literal vector-field names embedding and vector, and id, is recovered with
its value (keys equal to those four are deleted by the inbound
translation). -/
theorem lambdaDBToDocument_mkWireDoc (cfg : StoreConfig) (id content : String)
    (vector : List Int) (metadata : List (String × JsValue))
    (hmeta : ∀ k ∈ metadata.map Prod.fst,
      k ≠ cfg.textField ∧ k ≠ "content" ∧ k ≠ "pageContent")
    (hvf : cfg.vectorField ≠ cfg.textField ∧ cfg.vectorField ≠ "content" ∧
      cfg.vectorField ≠ "pageContent")
    (hnd : (metadata.map Prod.fst).Nodup) :
    (lambdaDBToDocument (mkWireDoc cfg id content vector metadata)
        cfg.textField).pageContent = JsValue.str content ∧
    (∀ k v, (k, v) ∈ metadata → k ≠ cfg.textField → k ≠ "embedding" →
      k ≠ "vector" → k ≠ "id" →
      objGet (lambdaDBToDocument (mkWireDoc cfg id content vector metadata)
        cfg.textField).metadata k = some v) := by
  obtain ⟨hv1, hv2, hv3⟩ := hvf
  have hwtf : objGet (mkWireDoc cfg id content vector metadata) cfg.textField
      = some (JsValue.str content) := by
    unfold mkWireDoc
    rw [objGet_objSetAll_notMem cfg.textField metadata _
        (fun hmem => (hmeta _ hmem).1 rfl),
      objGet_objSet_ne _ _ _ _ (Ne.symm hv1)]
    exact objGet_objSet_self _ _ _
  constructor
  · by_cases hc : content = ""
    · subst hc
      have hcc : objGet (mkWireDoc cfg id "" vector metadata) "content" = none ∨
          objGet (mkWireDoc cfg id "" vector metadata) "content" =
            some (JsValue.str "") := by
        by_cases htf : cfg.textField = "content"
        · right
          rw [← htf]
          exact hwtf
        · left
          unfold mkWireDoc
          rw [objGet_objSetAll_notMem _ metadata _
              (fun hmem => (hmeta _ hmem).2.1 rfl),
            objGet_objSet_ne _ _ _ _ (Ne.symm hv2),
            objGet_objSet_ne _ _ _ _ (fun hh => htf hh.symm),
            objGet_objSet_ne _ _ _ _ (by decide)]
          rfl
      have hpp : objGet (mkWireDoc cfg id "" vector metadata) "pageContent" = none ∨
          objGet (mkWireDoc cfg id "" vector metadata) "pageContent" =
            some (JsValue.str "") := by
        by_cases htf : cfg.textField = "pageContent"
        · right
          rw [← htf]
          exact hwtf
        · left
          unfold mkWireDoc
          rw [objGet_objSetAll_notMem _ metadata _
              (fun hmem => (hmeta _ hmem).2.2 rfl),
            objGet_objSet_ne _ _ _ _ (Ne.symm hv3),
            objGet_objSet_ne _ _ _ _ (fun hh => htf hh.symm),
            objGet_objSet_ne _ _ _ _ (by decide)]
          rfl
      rcases hcc with hcc | hcc <;> rcases hpp with hpp | hpp <;>
        simp [lambdaDBToDocument, hwtf, hcc, hpp, firstTruthy, jsTruthy]
    · have htr : jsTruthy (JsValue.str content) = true := by simp [jsTruthy, hc]
      simp [lambdaDBToDocument, hwtf, firstTruthy, htr]
  · intro k v hmem hk1 hk2 hk3 hk4
    show objGet (objDel (objDel (objDel (objDel
        (mkWireDoc cfg id content vector metadata) cfg.textField)
        "embedding") "vector") "id") k = some v
    rw [objGet_objDel_ne "id" k hk4 _, objGet_objDel_ne "vector" k hk3 _,
      objGet_objDel_ne "embedding" k hk2 _,
      objGet_objDel_ne cfg.textField k hk1 _]
    unfold mkWireDoc
    exact objGet_objSetAll_mem k v metadata _ hnd hmem

/-- C5 amended witness: concrete round trip with a non-colliding metadata
key recovers both the content and the metadata entry. -/
theorem lambdaDBToDocument_mkWireDoc_witness :
    (lambdaDBToDocument (mkWireDoc cfgDim3 "doc_2" "hello" [1, 2, 3]
        [("source", JsValue.str "x")]) cfgDim3.textField).pageContent
      = JsValue.str "hello" ∧
    objGet (lambdaDBToDocument (mkWireDoc cfgDim3 "doc_2" "hello" [1, 2, 3]
        [("source", JsValue.str "x")]) cfgDim3.textField).metadata "source"
      = some (JsValue.str "x") :=
  ⟨(lambdaDBToDocument_mkWireDoc cfgDim3 "doc_2" "hello" [1, 2, 3]
      [("source", JsValue.str "x")] (by decide) (by decide) (by decide)).1,
    (lambdaDBToDocument_mkWireDoc cfgDim3 "doc_2" "hello" [1, 2, 3]
      [("source", JsValue.str "x")] (by decide) (by decide) (by decide)).2
      "source" (JsValue.str "x") (by decide) (by decide) (by decide) (by decide)
      (by decide)⟩

/-- C8 witness: concrete evaluation at a single 50001-character document. -/
theorem addDocuments_length_gate_witness :
    (∃ i, addDocumentsCheck [bigDoc] = AddDocsOutcome.tooLong i ∧
        ∃ d, [bigDoc].get? i = some d ∧ 50 * 1000 < d.pageContent.length) ∧
      addDocumentsCheck [] = AddDocsOutcome.noop :=
  ⟨addDocuments_length_gate.1 [bigDoc]
      ⟨bigDoc, List.mem_singleton_self _, by
        rw [show bigDoc.pageContent = bigText from rfl, bigText_length]
        norm_num⟩,
    addDocuments_length_gate.2⟩

/-- C9: for a non-empty candidate list of n fetched results and k at least
1, maxMarginalRelevanceSearch returns min(k, n) documents drawn from the
candidates; at the index level the top-ranked candidate (rank 0) is
selected first and each subsequently selected rank is the unselected rank i
maximizing lambda * (1 - i/n) + (1 - lambda) * (i/n), earliest rank on
ties, relative to the ranks selected before it.  Numbers are modelled as
exact rationals. -/
theorem maxMarginalRelevanceSearch_rank_greedy (lambda : Rat) (k : Nat)
    (candidates : List InDoc) (hn : 1 ≤ candidates.length) (hk : 1 ≤ k) :
    (maxMarginalRelevanceSearch candidates k lambda).length
        = min k candidates.length ∧
    (∀ d ∈ maxMarginalRelevanceSearch candidates k lambda, d ∈ candidates) ∧
    (mmrSelect lambda candidates.length k).head? = some 0 ∧
    (∀ m i, (mmrSelect lambda candidates.length k).get? (m + 1) = some i →
      i < candidates.length ∧
      i ∉ (mmrSelect lambda candidates.length k).take (m + 1) ∧
      ∀ j, j < candidates.length →
        j ∉ (mmrSelect lambda candidates.length k).take (m + 1) →
        mmrScore lambda candidates.length j ≤ mmrScore lambda candidates.length i ∧
        (mmrScore lambda candidates.length j = mmrScore lambda candidates.length i →
          i ≤ j)) := by
  set n := candidates.length with hn_def
  obtain ⟨⟨t, ht⟩, hnd2, hall2, hlen2, hpick⟩ :=
    mmrLoop_spec lambda n k k [0] (List.nodup_singleton 0)
      (by intro i hi; rw [List.mem_singleton] at hi; omega)
      (by simp only [List.length_singleton]; omega)
  have hout_len : (mmrLoop lambda n k k [0]).length = min k n := by
    apply hlen2
    simp only [List.length_singleton]
    omega
  have hms : mmrSelect lambda n k = mmrLoop lambda n k k [0] := by
    unfold mmrSelect
    rw [if_neg (by omega)]
    apply List.take_of_length_le
    rw [hout_len]
    omega
  refine ⟨?_, ?_, ?_, ?_⟩
  · unfold maxMarginalRelevanceSearch
    rw [List.length_map, hms, hout_len]
  · intro d hd
    unfold maxMarginalRelevanceSearch at hd
    rw [List.mem_map] at hd
    obtain ⟨i, hi, rfl⟩ := hd
    rw [hms] at hi
    have hilt : i < n := hall2 i hi
    rw [List.getD_eq_get?, List.get?_eq_get hilt]
    simp only [Option.getD_some]
    exact List.get_mem candidates i hilt
  · rw [hms, ht]
    rfl
  · intro m i hget
    rw [hms] at hget ⊢
    exact hpick (m + 1) i hget (by simp only [List.length_singleton]; omega)

/-- C9 witness: concrete evaluation over two candidates with k = 2. -/
theorem maxMarginalRelevanceSearch_rank_greedy_witness :
    (maxMarginalRelevanceSearch mmrCands 2 (1 / 2)).length
        = min 2 mmrCands.length ∧
      (mmrSelect (1 / 2) mmrCands.length 2).head? = some 0 :=
  ⟨(maxMarginalRelevanceSearch_rank_greedy (1 / 2) 2 mmrCands
      (by decide) (by decide)).1,
    (maxMarginalRelevanceSearch_rank_greedy (1 / 2) 2 mmrCands
      (by decide) (by decide)).2.2.1⟩

end LangchainLambdaDB
